import Mathlib

/-!
Verification of the cc50 streaming-RPC framework (wire protocol, buffered
stream transport, tag-matched transport, request dispatcher, client
correlation layer) against its natural-language specification.

The C++ sources are shallowly embedded: machine integers become `Nat` with
explicit `% 2^w` where a cast truncates, byte buffers become `List Nat`,
and the event-driven loops become explicit state-passing functions.
-/

namespace CC50


/-! ### Wire protocol constants (include/cc50/common.hpp, protocol.hpp) -/

/-- Protocol magic constant `kMagic = 0x30354343` from common.hpp. -/
def kMagic : Nat := 0x30354343

/-- Supported protocol version `kProtoVer = 1` from protocol.hpp. -/
def kProtoVer : Nat := 1

/-- MsgType::REQ_INFER = 1. -/
def REQ_INFER : Nat := 1

/-- MsgType::RESP_CHUNK = 2. -/
def RESP_CHUNK : Nat := 2

/-- MsgType::RESP_DONE = 3. -/
def RESP_DONE : Nat := 3

/-- MsgType::RESP_ERR = 4. -/
def RESP_ERR : Nat := 4

/-! ### Little-endian byte serialization

`std::memcpy` of a naturally-aligned struct of fixed-width integers on the
x86-64 target lays each field out in little-endian byte order with no
padding (MsgHeader: u32 u16 u16 u64 u32 u32 at offsets 0,4,6,8,16,20,
total 24 bytes). -/

/-- The `w` little-endian bytes of value `v` (truncating to `w` bytes,
as a fixed-width store does). -/
def leBytes : Nat → Nat → List Nat
  | 0, _ => []
  | w + 1, v => v % 256 :: leBytes w (v / 256)

/-- Value of a little-endian byte list. -/
def leVal : List Nat → Nat
  | [] => 0
  | b :: bs => b + 256 * leVal bs

/-- Read `w` bytes at offset `off` of `bytes` as a little-endian value. -/
def readLE (bytes : List Nat) (off w : Nat) : Nat :=
  leVal ((bytes.drop off).take w)

/-! ### MsgHeader (protocol.hpp) and its wire encoding -/

/-- MsgHeader struct: magic u32, version u16, type u16, req_id u64,
flags u32, length u32. -/
structure MsgHeader where
  magic : Nat
  version : Nat
  type : Nat
  req_id : Nat
  flags : Nat
  length : Nat
deriving DecidableEq, Repr

/-- sizeof(MsgHeader) = 24 on the target (no padding). -/
def headerSize : Nat := 24

/-- Wire bytes of a header, as produced by memcpy of the struct. -/
def encodeHeader (h : MsgHeader) : List Nat :=
  leBytes 4 h.magic ++ leBytes 2 h.version ++ leBytes 2 h.type ++
  leBytes 8 h.req_id ++ leBytes 4 h.flags ++ leBytes 4 h.length

/-- Reading a header back out of a byte buffer (memcpy into the struct,
as both handle_read and pump_recv_locked do). -/
def decodeHeader (bytes : List Nat) : MsgHeader :=
  { magic := readLE bytes 0 4
    version := readLE bytes 4 2
    type := readLE bytes 6 2
    req_id := readLE bytes 8 8
    flags := readLE bytes 16 4
    length := readLE bytes 20 4 }

/-- IncomingMessage (transport.hpp): req_id, type, payload bytes. -/
structure IncomingMessage where
  req_id : Nat
  type : Nat
  payload : List Nat
deriving DecidableEq, Repr

/-- Frame construction of TcpTransport::send / UcxTransport::send: header
with kMagic, kProtoVer, the given type and req_id, flags 0, and
`length = static_cast<uint32_t>(len)`, followed by the payload bytes.
The `leBytes` truncation to the field widths mirrors the fixed-width
stores (`type` is a u16 parameter, `req_id` a u64, the length cast is
explicit in the source). -/
def sendFrame (req_id type : Nat) (data : List Nat) : List Nat :=
  encodeHeader
    { magic := kMagic, version := kProtoVer, type := type, req_id := req_id
      flags := 0, length := data.length } ++ data

/-! ### Buffered stream transport: frame reassembly
(TcpTransport::handle_read, tcp_transport.cpp lines 149-194)

The inner `while (c.rx.size() >= sizeof(MsgHeader))` loop of handle_read:
parse a header once 24 bytes are buffered; a wrong magic makes handle_read
return an error status (the buffer of the connection is left as-is and nothing
further is delivered); an incomplete frame stops the loop; a complete frame
is delivered to the handler and its bytes removed from the front. -/

/-- Read-side state of the parse loop of one connection: either still parsing
with a residual inbound buffer, or failed (handle_read returned a bad-magic
error). Both carry the messages delivered to the handler so far, in order. -/
inductive FeedState where
  | ok (rx : List Nat) (delivered : List IncomingMessage)
  | failed (delivered : List IncomingMessage)
deriving DecidableEq, Repr

/-- Messages delivered to the handler so far. -/
def FeedState.msgs : FeedState → List IncomingMessage
  | .ok _ d => d
  | .failed d => d

/-- The parse loop of handle_read, starting from buffered bytes `rx` with
`acc` already delivered: extracts complete frames from the front until the
remainder is shorter than a header or an incomplete frame, failing on a
bad magic. -/
def drainFrames (rx : List Nat) (acc : List IncomingMessage) : FeedState :=
  if rx.length < headerSize then FeedState.ok rx acc
  else
    let hd := decodeHeader rx
    if hd.magic ≠ kMagic then FeedState.failed acc
    else
      if rx.length < headerSize + hd.length then FeedState.ok rx acc
      else
        drainFrames (rx.drop (headerSize + hd.length))
          (acc ++ [⟨hd.req_id, hd.type, (rx.drop headerSize).take hd.length⟩])
termination_by rx.length
decreasing_by
  simp only [List.length_drop]
  simp only [headerSize] at *
  omega

/-- One call of handle_read on a connection delivering `bytes` fresh bytes
from the socket: append to the inbound buffer and run the parse loop. After
a previous bad-magic failure the loop re-reads the same poisoned header and
fails again without delivering anything. -/
def feedBytes : FeedState → List Nat → FeedState
  | .ok rx acc, bytes => drainFrames (rx ++ bytes) acc
  | .failed acc, _ => .failed acc

/-- The initial state of a fresh connection: empty inbound buffer, nothing
delivered. -/
def initFeed : FeedState := FeedState.ok [] []

/-! ### Frames as the sender sees them -/

/-- An outbound frame as handed to `ITransport::send`: correlation id,
message type, payload bytes. -/
structure Frame where
  req_id : Nat
  type : Nat
  payload : List Nat
deriving DecidableEq, Repr

/-- Wire encoding of a frame (the header construction of the sender). -/
def encodeFrame (f : Frame) : List Nat :=
  sendFrame f.req_id f.type f.payload

/-- The IncomingMessage the receiver should build for a frame. -/
def Frame.toMsg (f : Frame) : IncomingMessage :=
  ⟨f.req_id, f.type, f.payload⟩

/-- A frame representable at the C++ call boundary: `type` is a `uint16_t`
parameter, `req_id` a `uint64_t`, and the payload length survives the
`static_cast<uint32_t>(len)` in the header construction. -/
def WFframe (f : Frame) : Prop :=
  f.type < 2 ^ 16 ∧ f.req_id < 2 ^ 64 ∧ f.payload.length < 2 ^ 32

instance (f : Frame) : Decidable (WFframe f) := by
  unfold WFframe; infer_instance

/-! ### Tag-matched transport receive pump
(pump_recv_locked, ucx_transport.cpp lines 48-110)

Each probed matched message arrives with its full length `info.length`.
A message shorter than the header is drained and skipped; a magic mismatch
is skipped; otherwise an IncomingMessage is built whose payload is
everything after the header (`plen = len - sizeof(MsgHeader)`). -/

/-- Decode of one matched message in pump_recv_locked: `none` means the
message is consumed and discarded without delivery. -/
def ucxDecode (bytes : List Nat) : Option IncomingMessage :=
  if bytes.length < headerSize then none
  else
    let h := decodeHeader bytes
    if h.magic ≠ kMagic then none
    else some ⟨h.req_id, h.type, bytes.drop headerSize⟩

/-- The pump loop over the pending matched messages, in match order;
collected messages are later handed to the handler outside the lock. -/
def pumpRecv (matched : List (List Nat)) : List IncomingMessage :=
  matched.filterMap ucxDecode

/-! ### Request dispatcher (ServerApp, server.cpp) -/

/-- sizeof(InferRequestHdr) = 12 (three u32 fields). -/
def reqHdrSize : Nat := 12

/-- InferRequestHdr (protocol.hpp): max_tokens, credit_bytes, prompt_len. -/
structure InferRequestHdr where
  max_tokens : Nat
  credit_bytes : Nat
  prompt_len : Nat
deriving DecidableEq, Repr

/-- memcpy of the request header prefix out of a REQ_INFER payload. -/
def decodeReqHdr (payload : List Nat) : InferRequestHdr :=
  ⟨readLE payload 0 4, readLE payload 4 4, readLE payload 8 4⟩

/-- InferRequest (backend.hpp): correlation id, token budget, credit
budget, prompt bytes. -/
structure InferRequest where
  req_id : Nat
  max_tokens : Nat
  credit_bytes : Nat
  prompt : List Nat
deriving DecidableEq, Repr

/-- ServerConfig{max_tokens_default{128}} (server.cpp line 32). -/
def defaultMaxTokens : Nat := 128

/-- ServerApp::on_msg (server.cpp lines 120-139): returns the InferRequest
pushed to the FIFO queue, or `none` when the message is dropped silently
(wrong type, payload shorter than the request header, or shorter than
header plus declared prompt length). -/
def on_msg (maxTokensDefault : Nat) (m : IncomingMessage) : Option InferRequest :=
  if m.type ≠ REQ_INFER then none
  else if m.payload.length < reqHdrSize then none
  else
    let rh := decodeReqHdr m.payload
    if m.payload.length < reqHdrSize + rh.prompt_len then none
    else some ⟨m.req_id,
      if rh.max_tokens ≠ 0 then rh.max_tokens else maxTokensDefault,
      rh.credit_bytes,
      (m.payload.drop reqHdrSize).take rh.prompt_len⟩

/-- on_msg as a transition on the work queue. The on_msg body in the source
contains no transport send at all, so the emitted-frame component is
always empty: a dropped message produces no response frames. -/
def dispatchStep (maxTokensDefault : Nat) (q : List InferRequest)
    (m : IncomingMessage) : List InferRequest × List Frame :=
  match on_msg maxTokensDefault m with
  | none => (q, [])
  | some r => (q ++ [r], [])

/-! ### Worker loop, one dequeued item
(ServerApp::worker_loop, server.cpp lines 141-179) -/

/-- Fallback credit budget `256 * 1024` (server.cpp line 154). -/
def defaultCredit : Nat := 256 * 1024

/-- The worker line `uint32_t credit = wi.req.credit_bytes ? wi.req.credit_bytes : 256*1024`. -/
def creditFor (credit_bytes : Nat) : Nat :=
  if credit_bytes ≠ 0 then credit_bytes else defaultCredit

/-- The chunk callback (server.cpp lines 158-163) acting on
(frames emitted so far, sent_bytes): a chunk whose size would push
sent_bytes past the credit is dropped; otherwise a RESP_CHUNK frame is
emitted and `sent_bytes += (uint32_t)chunk.size()` (a u32 store). -/
def chunkStep (credit rid : Nat) (st : List Frame × Nat) (c : List Nat) :
    List Frame × Nat :=
  if st.2 + c.length > credit then st
  else (st.1 ++ [⟨rid, RESP_CHUNK, c⟩], (st.2 + c.length % 2 ^ 32) % 2 ^ 32)

/-- All chunk-callback invocations of one backend call, starting from
`sent_bytes = 0`. -/
def runChunks (credit rid : Nat) (chunks : List (List Nat)) :
    List Frame × Nat :=
  chunks.foldl (chunkStep credit rid) ([], 0)

/-- Wire bytes of InferDone{tokens, reserved=0, elapsed_us} (value-initialized,
then tokens and elapsed_us assigned). -/
def doneBytes (tokens elapsed_us : Nat) : List Nat :=
  leBytes 4 tokens ++ leBytes 4 0 ++ leBytes 8 elapsed_us

/-- Observable outcome of one `backend_->infer_stream` call: the returned
status, its message, the chunk-callback invocations in order, and the
InferResult fields the worker reads. -/
structure BackendCall where
  ok : Bool
  statusMsg : List Nat
  chunks : List (List Nat)
  tokens : Nat
  elapsed_us : Nat
  errorText : List Nat
deriving DecidableEq, Repr

/-- The expression `res.error.empty() ? st.msg : res.error` (server.cpp line 168). -/
def errMsgOf (b : BackendCall) : List Nat :=
  if b.errorText = [] then b.statusMsg else b.errorText

/-- All frames the worker hands to `transport_->send` for one dequeued
request, in order: throttled RESP_CHUNK frames during the backend call,
one RESP_ERR on failure, then unconditionally one RESP_DONE. -/
def workerFrames (req : InferRequest) (b : BackendCall) : List Frame :=
  (runChunks (creditFor req.credit_bytes) req.req_id b.chunks).1 ++
  (if b.ok then [] else [⟨req.req_id, RESP_ERR, errMsgOf b⟩]) ++
  [⟨req.req_id, RESP_DONE, doneBytes b.tokens b.elapsed_us⟩]

/-! ### Multi-connection progress and the server run loop
(TcpTransport::progress lines 260-298, ServerApp::run lines 101-107) -/

/-- Whether the parse state of a connection is still healthy (the status of
handle_read is an error exactly when the state is failed). -/
def connOk : FeedState → Bool
  | .ok _ _ => true
  | .failed _ => false

/-- handle_read on the connection table: feed the drained socket bytes to
the parse loop of the matching connection; the Bool is the handle_read status
(false = error propagated to progress). A missing fd is the
"peer not connected" error. -/
def handleReadConns (conns : List (Nat × FeedState)) (fd : Nat)
    (bytes : List Nat) : List (Nat × FeedState) × Bool :=
  match conns with
  | [] => ([], false)
  | (cfd, st) :: rest =>
    if cfd = fd then
      ((cfd, feedBytes st bytes) :: rest, connOk (feedBytes st bytes))
    else
      ((cfd, st) :: (handleReadConns rest fd bytes).1,
       (handleReadConns rest fd bytes).2)

/-- One progress call over its epoll read events, in report order: each
event drains one connection; the first handle_read error aborts the loop
and progress returns that error (remaining events unprocessed). -/
def progressEvents (conns : List (Nat × FeedState)) :
    List (Nat × List Nat) → List (Nat × FeedState) × Bool
  | [] => (conns, true)
  | (fd, bytes) :: evs =>
    if (handleReadConns conns fd bytes).2
    then progressEvents (handleReadConns conns fd bytes).1 evs
    else ((handleReadConns conns fd bytes).1, false)

/-- The run loop of the server: drive progress over successive event batches;
on the first failing progress call, log and break (the Bool result is
false when the loop exited early, true while it keeps running). -/
def serverRun (conns : List (Nat × FeedState)) :
    List (List (Nat × List Nat)) → List (Nat × FeedState) × Bool
  | [] => (conns, true)
  | batch :: batches =>
    if (progressEvents conns batch).2
    then serverRun (progressEvents conns batch).1 batches
    else ((progressEvents conns batch).1, false)

/-! ### Client correlation layer (client.cpp main, lines 104-176) -/

/-- The effect of the client handler on `got_err` over the frames delivered
during the wait loop of one iteration: frames whose req_id differs from the
outstanding request are discarded; a matching RESP_ERR sets got_err. -/
def clientIterGotErr (rid : Nat) (frames : List Frame) : Bool :=
  frames.foldl
    (fun ge f =>
      if f.req_id ≠ rid then ge
      else if f.type = RESP_ERR then true else ge)
    false

/-- The exit code of the client after its iteration loop: `got_err` is reset to
false at the top of every iteration, and `return got_err ? 2 : 0` runs
after the loop. Each iteration is (its req_id, the frames delivered while
waiting on it). -/
def clientExitCode (iters : List (Nat × List Frame)) : Nat :=
  if iters.foldl (fun _ it => clientIterGotErr it.1 it.2) false then 2 else 0

/-- A concrete frame carrying the correct magic but header version 2. -/
def versionTwoFrame : List Nat :=
  encodeHeader ⟨kMagic, 2, RESP_DONE, 9, 0, 0⟩

/-- Bytes whose 24-byte header carries a wrong magic. -/
def badMagicBytes : List Nat := List.replicate 24 9

theorem leBytes_length (w v : Nat) : (leBytes w v).length = w := by
  induction w generalizing v with
  | zero => rfl
  | succ k ih => simp [leBytes, ih]

theorem leVal_leBytes (w v : Nat) : leVal (leBytes w v) = v % 256 ^ w := by
  induction w generalizing v with
  | zero => simp [leBytes, leVal, Nat.mod_one]
  | succ k ih =>
    simp only [leBytes, leVal, ih]
    rw [Nat.pow_succ']
    have h1 : v / 256 % 256 ^ k = v % (256 * 256 ^ k) / 256 :=
      (Nat.mod_mul_right_div_self v 256 (256 ^ k)).symm
    have h2 : v % 256 = v % (256 * 256 ^ k) % 256 :=
      (Nat.mod_mod_of_dvd v ⟨256 ^ k, rfl⟩).symm
    rw [h1, h2, Nat.mod_add_div]

theorem encodeHeader_length (h : MsgHeader) :
    (encodeHeader h).length = headerSize := by
  simp [encodeHeader, leBytes_length, headerSize]

theorem sendFrame_length (r t : Nat) (data : List Nat) :
    (sendFrame r t data).length = headerSize + data.length := by
  simp [sendFrame, encodeHeader_length]

theorem readLE_skip (xs bytes : List Nat) (off w : Nat) :
    readLE (xs ++ bytes) (xs.length + off) w = readLE bytes off w := by
  unfold readLE
  rw [List.drop_append]

theorem readLE_head (w v : Nat) (rest : List Nat) :
    readLE (leBytes w v ++ rest) 0 w = v % 256 ^ w := by
  unfold readLE
  rw [List.drop_zero, List.take_left' (leBytes_length w v), leVal_leBytes]

theorem decodeHeader_encode (h : MsgHeader) (rest : List Nat) :
    decodeHeader (encodeHeader h ++ rest) =
      { magic := h.magic % 256 ^ 4, version := h.version % 256 ^ 2
        type := h.type % 256 ^ 2, req_id := h.req_id % 256 ^ 8
        flags := h.flags % 256 ^ 4, length := h.length % 256 ^ 4 } := by
  unfold decodeHeader encodeHeader
  simp only [List.append_assoc, MsgHeader.mk.injEq]
  refine ⟨?_, ?_, ?_, ?_, ?_, ?_⟩
  · exact readLE_head 4 h.magic _
  · exact (readLE_skip (leBytes 4 h.magic) _ 0 2).trans (readLE_head 2 h.version _)
  · exact (readLE_skip (leBytes 4 h.magic) _ 2 2).trans
      ((readLE_skip (leBytes 2 h.version) _ 0 2).trans (readLE_head 2 h.type _))
  · exact (readLE_skip (leBytes 4 h.magic) _ 4 8).trans
      ((readLE_skip (leBytes 2 h.version) _ 2 8).trans
        ((readLE_skip (leBytes 2 h.type) _ 0 8).trans (readLE_head 8 h.req_id _)))
  · exact (readLE_skip (leBytes 4 h.magic) _ 12 4).trans
      ((readLE_skip (leBytes 2 h.version) _ 10 4).trans
        ((readLE_skip (leBytes 2 h.type) _ 8 4).trans
          ((readLE_skip (leBytes 8 h.req_id) _ 0 4).trans (readLE_head 4 h.flags _))))
  · exact (readLE_skip (leBytes 4 h.magic) _ 16 4).trans
      ((readLE_skip (leBytes 2 h.version) _ 14 4).trans
        ((readLE_skip (leBytes 2 h.type) _ 12 4).trans
          ((readLE_skip (leBytes 8 h.req_id) _ 4 4).trans
            ((readLE_skip (leBytes 4 h.flags) _ 0 4).trans (readLE_head 4 h.length _)))))

theorem takeDrop_append_of_le (rx b : List Nat) (off w : Nat) (h : off + w ≤ rx.length) :
    ((rx ++ b).drop off).take w = (rx.drop off).take w := by
  rw [List.drop_append_of_le_length (by omega)]
  rw [List.take_append_of_le_length (by simp only [List.length_drop]; omega)]

theorem decodeHeader_append_of_le (rx b : List Nat) (h : headerSize ≤ rx.length) :
    decodeHeader (rx ++ b) = decodeHeader rx := by
  have h24 : 24 ≤ rx.length := h
  unfold decodeHeader readLE
  rw [takeDrop_append_of_le rx b 0 4 (by omega), takeDrop_append_of_le rx b 4 2 (by omega),
      takeDrop_append_of_le rx b 6 2 (by omega), takeDrop_append_of_le rx b 8 8 (by omega),
      takeDrop_append_of_le rx b 16 4 (by omega), takeDrop_append_of_le rx b 20 4 (by omega)]

/-- Core reassembly property of the parse loop: bytes arriving later commute
with draining, so the loop state after buffering `rx ++ b` equals feeding `b`
into the state reached on `rx` alone. -/
theorem drainFrames_append_aux (n : Nat) : ∀ (rx : List Nat), rx.length ≤ n →
    ∀ (b : List Nat) (acc : List IncomingMessage),
    drainFrames (rx ++ b) acc = feedBytes (drainFrames rx acc) b := by
  induction n with
  | zero =>
    intro rx hle b acc
    have hrx : rx = [] := List.eq_nil_of_length_eq_zero (Nat.le_zero.mp hle)
    subst hrx
    have h1 : drainFrames [] acc = FeedState.ok [] acc := by
      rw [drainFrames]; simp [headerSize]
    rw [h1]
    rfl
  | succ k ih =>
    intro rx hle b acc
    by_cases h24 : rx.length < headerSize
    · have h1 : drainFrames rx acc = FeedState.ok rx acc := by
        rw [drainFrames]; simp [h24]
      rw [h1]
      rfl
    · have hd24 : headerSize ≤ rx.length := le_of_not_lt h24
      have hdec := decodeHeader_append_of_le rx b hd24
      have h24b : ¬ (rx ++ b).length < headerSize := by
        simp only [List.length_append]; omega
      by_cases hm : (decodeHeader rx).magic = kMagic
      · by_cases hn : rx.length < headerSize + (decodeHeader rx).length
        · -- incomplete frame on rx alone: the state just carries rx forward
          have h1 : drainFrames rx acc = FeedState.ok rx acc := by
            rw [drainFrames]; simp [h24, hm, hn]
          rw [h1]
          rfl
        · -- a complete frame is extracted on both sides
          have hneed : headerSize + (decodeHeader rx).length ≤ rx.length := le_of_not_lt hn
          have hLcond : ¬ (rx ++ b).length < headerSize + (decodeHeader rx).length := by
            simp only [List.length_append]; omega
          have hL : drainFrames (rx ++ b) acc =
              drainFrames ((rx ++ b).drop (headerSize + (decodeHeader rx).length))
                (acc ++ [⟨(decodeHeader rx).req_id, (decodeHeader rx).type,
                  ((rx ++ b).drop headerSize).take (decodeHeader rx).length⟩]) := by
            rw [drainFrames, if_neg h24b]
            simp [hdec, hm, hLcond]
            intro hcontra
            exact absurd hcontra (by simpa [List.length_append] using hLcond)
          have hpay : ((rx ++ b).drop headerSize).take (decodeHeader rx).length =
              (rx.drop headerSize).take (decodeHeader rx).length :=
            takeDrop_append_of_le rx b headerSize (decodeHeader rx).length hneed
          have hdrop : (rx ++ b).drop (headerSize + (decodeHeader rx).length) =
              rx.drop (headerSize + (decodeHeader rx).length) ++ b :=
            List.drop_append_of_le_length hneed
          have hR : drainFrames rx acc =
              drainFrames (rx.drop (headerSize + (decodeHeader rx).length))
                (acc ++ [⟨(decodeHeader rx).req_id, (decodeHeader rx).type,
                  (rx.drop headerSize).take (decodeHeader rx).length⟩]) := by
            rw [drainFrames]
            simp [h24, hm, hn]
          have hlen : (rx.drop (headerSize + (decodeHeader rx).length)).length ≤ k := by
            simp only [List.length_drop]
            have : 0 < headerSize := by simp [headerSize]
            omega
          rw [hL, hpay, hdrop, hR]
          exact ih _ hlen b _
      · -- bad magic: both sides fail with the same deliveries
        have h1 : drainFrames rx acc = FeedState.failed acc := by
          rw [drainFrames]; simp [h24, hm]
        have h2 : drainFrames (rx ++ b) acc = FeedState.failed acc := by
          rw [drainFrames, if_neg h24b]; simp [hdec, hm]
        rw [h1, h2]
        rfl

theorem drainFrames_append (rx b : List Nat) (acc : List IncomingMessage) :
    drainFrames (rx ++ b) acc = feedBytes (drainFrames rx acc) b :=
  drainFrames_append_aux rx.length rx le_rfl b acc

/-- Feeding two byte batches one after the other equals feeding their
concatenation. -/
theorem feedBytes_append (s : FeedState) (a b : List Nat) :
    feedBytes s (a ++ b) = feedBytes (feedBytes s a) b := by
  cases s with
  | ok rx acc =>
    show drainFrames (rx ++ (a ++ b)) acc = feedBytes (drainFrames (rx ++ a) acc) b
    rw [← List.append_assoc]
    exact drainFrames_append (rx ++ a) b acc
  | failed acc => rfl

/-- Any state just produced by a feed is stable: feeding zero further bytes
leaves it unchanged (the drain loop has already run to quiescence). -/
theorem feedBytes_stable (s : FeedState) (bytes : List Nat) :
    feedBytes (feedBytes s bytes) [] = feedBytes s bytes := by
  cases s with
  | ok rx acc =>
    show feedBytes (drainFrames (rx ++ bytes) acc) [] = drainFrames (rx ++ bytes) acc
    have h := drainFrames_append (rx ++ bytes) [] acc
    rw [List.append_nil] at h
    exact h.symm
  | failed acc => rfl

theorem initFeed_stable : feedBytes initFeed [] = initFeed := by
  show drainFrames ([] ++ []) [] = FeedState.ok [] []
  rw [drainFrames]
  simp [headerSize]

/-- Feeding a list of byte pieces one at a time equals feeding their
concatenation as a single piece, from any quiescent state. -/
theorem feedBytes_foldl (s : FeedState) (hs : feedBytes s [] = s)
    (pieces : List (List Nat)) :
    pieces.foldl feedBytes s = feedBytes s pieces.flatten := by
  induction pieces generalizing s with
  | nil => simpa [List.foldl_nil, List.flatten_nil] using hs.symm
  | cons p ps ih =>
    simp only [List.foldl_cons, List.flatten_cons]
    rw [ih (feedBytes s p) (feedBytes_stable s p), feedBytes_append]

theorem kMagic_mod : kMagic % 256 ^ 4 = kMagic := by decide

theorem drainFrames_sendFrame (r t : Nat) (p rest : List Nat)
    (ht : t < 2 ^ 16) (hr : r < 2 ^ 64) (hp : p.length < 2 ^ 32)
    (acc : List IncomingMessage) :
    drainFrames (sendFrame r t p ++ rest) acc =
      drainFrames rest (acc ++ [⟨r, t, p⟩]) := by
  have hassoc : sendFrame r t p ++ rest =
      encodeHeader ⟨kMagic, kProtoVer, t, r, 0, p.length⟩ ++ (p ++ rest) := by
    simp [sendFrame, List.append_assoc]
  have hdec : decodeHeader (sendFrame r t p ++ rest) =
      ⟨kMagic, kProtoVer, t, r, 0, p.length⟩ := by
    rw [hassoc, decodeHeader_encode]
    have h0 : kProtoVer % 256 ^ 2 = kProtoVer := by decide
    have h1 : t % 256 ^ 2 = t := Nat.mod_eq_of_lt (lt_of_lt_of_le ht (by norm_num))
    have h2 : r % 256 ^ 8 = r := Nat.mod_eq_of_lt (lt_of_lt_of_le hr (by norm_num))
    have h3 : p.length % 256 ^ 4 = p.length :=
      Nat.mod_eq_of_lt (lt_of_lt_of_le hp (by norm_num))
    simp [kMagic_mod, h0, h1, h2, h3]
    refine ⟨by decide, by decide, ?_, ?_, ?_⟩ <;> omega
  have hlen : (sendFrame r t p ++ rest).length =
      headerSize + p.length + rest.length := by
    simp [sendFrame_length]
  rw [drainFrames]
  rw [if_neg (by rw [hlen]; omega)]
  simp only [hdec]
  rw [if_neg (by simp)]
  rw [if_neg (by rw [hlen]; omega)]
  have hdrop24 : (sendFrame r t p ++ rest).drop headerSize = p ++ rest := by
    have : sendFrame r t p ++ rest = (sendFrame r t p ++ rest) := rfl
    rw [hassoc]
    exact List.drop_left' (encodeHeader_length _)
  have hpay : ((sendFrame r t p ++ rest).drop headerSize).take p.length = p := by
    rw [hdrop24]
    exact List.take_left p rest
  have hdropAll : (sendFrame r t p ++ rest).drop (headerSize + p.length) = rest :=
    List.drop_left' (by rw [sendFrame_length])
  rw [hpay, hdropAll]

/-- Draining the concatenated encodings of well-formed frames from any
quiescent point delivers exactly those frames, in order, leaving an empty
buffer. -/
theorem drainFrames_stream (fs : List Frame) (hwf : ∀ f ∈ fs, WFframe f)
    (acc : List IncomingMessage) :
    drainFrames (fs.map encodeFrame).flatten acc =
      FeedState.ok [] (acc ++ fs.map Frame.toMsg) := by
  induction fs generalizing acc with
  | nil =>
    rw [drainFrames]
    simp [headerSize]
  | cons f fs ih =>
    have hf : WFframe f := hwf f (List.mem_cons_self f fs)
    obtain ⟨ht, hr, hp⟩ := hf
    simp only [List.map_cons, List.flatten_cons]
    rw [show encodeFrame f = sendFrame f.req_id f.type f.payload from rfl]
    rw [drainFrames_sendFrame f.req_id f.type f.payload _ ht hr hp acc]
    rw [ih (fun g hg => hwf g (List.mem_cons_of_mem f hg))]
    simp [Frame.toMsg]

/-! ### Unfolding lemmas for the parse loop -/

theorem drainFrames_short (rx : List Nat) (acc : List IncomingMessage)
    (h : rx.length < headerSize) : drainFrames rx acc = FeedState.ok rx acc := by
  rw [drainFrames]; simp [h]

theorem drainFrames_badmagic (rx : List Nat) (acc : List IncomingMessage)
    (h24 : ¬ rx.length < headerSize)
    (hm : (decodeHeader rx).magic ≠ kMagic) :
    drainFrames rx acc = FeedState.failed acc := by
  rw [drainFrames]; simp [h24, hm]

theorem drainFrames_step (rx : List Nat) (acc : List IncomingMessage)
    (h24 : ¬ rx.length < headerSize)
    (hm : (decodeHeader rx).magic = kMagic)
    (hn : ¬ rx.length < headerSize + (decodeHeader rx).length) :
    drainFrames rx acc =
      drainFrames (rx.drop (headerSize + (decodeHeader rx).length))
        (acc ++ [⟨(decodeHeader rx).req_id, (decodeHeader rx).type,
          (rx.drop headerSize).take (decodeHeader rx).length⟩]) := by
  rw [drainFrames]; simp [h24, hm, hn]

/-! ### Worker-loop lemmas -/

theorem runChunks_types (credit rid : Nat) (cs : List (List Nat)) :
    ∀ f ∈ (runChunks credit rid cs).1, f.type = RESP_CHUNK := by
  unfold runChunks
  suffices h : ∀ (st : List Frame × Nat), (∀ f ∈ st.1, f.type = RESP_CHUNK) →
      ∀ f ∈ (cs.foldl (chunkStep credit rid) st).1, f.type = RESP_CHUNK by
    exact h ([], 0) (by simp)
  induction cs with
  | nil => intro st hst; simpa using hst
  | cons c cs ih =>
    intro st hst
    simp only [List.foldl_cons]
    apply ih
    unfold chunkStep
    split
    · exact hst
    · intro f hf
      rcases List.mem_append.mp hf with h | h
      · exact hst f h
      · simp only [List.mem_singleton] at h
        subst h
        rfl

/-- Claim C3: for every dequeued request the worker emits exactly one
RESP_DONE after the backend call, a failing call additionally emits exactly
one RESP_ERR which precedes the RESP_DONE (the RESP_DONE is the final
frame), and a succeeding call emits no RESP_ERR. -/
theorem error_then_done (req : InferRequest) (b : BackendCall) :
    (workerFrames req b).countP (fun f => f.type == RESP_DONE) = 1 ∧
    (workerFrames req b).countP (fun f => f.type == RESP_ERR) =
      (if b.ok then 0 else 1) ∧
    (workerFrames req b).getLast? =
      some ⟨req.req_id, RESP_DONE, doneBytes b.tokens b.elapsed_us⟩ := by
  unfold workerFrames
  have hchunk := runChunks_types (creditFor req.credit_bytes) req.req_id b.chunks
  have hcd : ((runChunks (creditFor req.credit_bytes) req.req_id b.chunks).1).countP
      (fun f => f.type == RESP_DONE) = 0 := by
    apply List.countP_eq_zero.mpr
    intro f hf
    simp [hchunk f hf, RESP_CHUNK, RESP_DONE]
  have hce : ((runChunks (creditFor req.credit_bytes) req.req_id b.chunks).1).countP
      (fun f => f.type == RESP_ERR) = 0 := by
    apply List.countP_eq_zero.mpr
    intro f hf
    simp [hchunk f hf, RESP_CHUNK, RESP_ERR]
  refine ⟨?_, ?_, ?_⟩
  · rw [List.countP_append, List.countP_append, hcd]
    cases b.ok <;> simp [RESP_ERR, RESP_DONE]
  · rw [List.countP_append, List.countP_append, hce]
    cases b.ok <;> simp [RESP_ERR, RESP_DONE]
  · exact List.getLast?_concat _

/-- Claim C7: the dispatcher drops a message silently (queue unchanged,
no frame of any kind emitted) exactly when its type is not REQ_INFER, or
its payload is shorter than the request header, or shorter than the header
plus the declared prompt length; otherwise it enqueues exactly one
InferRequest built from the payload. -/
theorem dispatch_silent_drop (d : Nat) (q : List InferRequest)
    (m : IncomingMessage) :
    ((m.type ≠ REQ_INFER ∨ m.payload.length < reqHdrSize ∨
        m.payload.length < reqHdrSize + (decodeReqHdr m.payload).prompt_len) →
      dispatchStep d q m = (q, [])) ∧
    (m.type = REQ_INFER → ¬ m.payload.length < reqHdrSize →
      ¬ m.payload.length < reqHdrSize + (decodeReqHdr m.payload).prompt_len →
      dispatchStep d q m = (q ++ [⟨m.req_id,
        if (decodeReqHdr m.payload).max_tokens ≠ 0
          then (decodeReqHdr m.payload).max_tokens else d,
        (decodeReqHdr m.payload).credit_bytes,
        (m.payload.drop reqHdrSize).take (decodeReqHdr m.payload).prompt_len⟩],
        [])) := by
  constructor
  · intro h
    unfold dispatchStep on_msg
    rcases h with h1 | h2 | h3
    · simp [h1]
    · by_cases ht : m.type ≠ REQ_INFER
      · simp [ht]
      · simp [ht, h2]
    · by_cases ht : m.type ≠ REQ_INFER
      · simp [ht]
      · by_cases hs : m.payload.length < reqHdrSize
        · simp [ht, hs]
        · simp [ht, hs, h3]
  · intro h1 h2 h3
    unfold dispatchStep on_msg
    simp [h1, h2, h3]

theorem dispatch_silent_drop_witness :
    dispatchStep 128 [] ⟨5, RESP_CHUNK, []⟩ = ([], []) ∧
    dispatchStep 128 [] ⟨5, REQ_INFER,
        leBytes 4 0 ++ leBytes 4 0 ++ leBytes 4 7⟩ = ([], []) :=
  ⟨(dispatch_silent_drop 128 [] ⟨5, RESP_CHUNK, []⟩).1 (by decide),
   (dispatch_silent_drop 128 [] ⟨5, REQ_INFER,
      leBytes 4 0 ++ leBytes 4 0 ++ leBytes 4 7⟩).1 (by right; right; decide)⟩

/-- Claim C10: on an accepted REQ_INFER, a zero max_tokens field is
replaced by the configured default (whose configured value is 128 unless
overridden) and a zero credit_bytes field makes the worker use a
262144-byte credit budget; nonzero fields pass through, and the effective
credit budget is never zero. -/
theorem zero_defaults (d : Nat) (m : IncomingMessage) (req : InferRequest)
    (hacc : on_msg d m = some req) :
    ((decodeReqHdr m.payload).max_tokens = 0 → req.max_tokens = d) ∧
    ((decodeReqHdr m.payload).max_tokens ≠ 0 →
      req.max_tokens = (decodeReqHdr m.payload).max_tokens) ∧
    (req.credit_bytes = 0 → creditFor req.credit_bytes = 262144) ∧
    (req.credit_bytes ≠ 0 → creditFor req.credit_bytes = req.credit_bytes) ∧
    creditFor req.credit_bytes ≠ 0 ∧
    defaultMaxTokens = 128 := by
  unfold on_msg at hacc
  split at hacc
  · exact absurd hacc (by simp)
  · split at hacc
    · exact absurd hacc (by simp)
    · dsimp only at hacc
      split at hacc
      · exact absurd hacc (by simp)
      · rw [Option.some.injEq] at hacc
        subst hacc
        refine ⟨?_, ?_, ?_, ?_, ?_, rfl⟩
        · intro h0; simp [h0]
        · intro h0; simp [h0]
        · intro h0; simp only at h0; simp [creditFor, h0, defaultCredit]
        · intro h0; simp only at h0; simp [creditFor, h0]
        · by_cases h0 : (decodeReqHdr m.payload).credit_bytes = 0
          · simp [creditFor, h0, defaultCredit]
          · simp [creditFor, h0]

theorem zero_defaults_witness :
    (⟨5, 128, 0, []⟩ : InferRequest).max_tokens = 128 ∧
    creditFor (⟨5, 128, 0, []⟩ : InferRequest).credit_bytes = 262144 :=
  ⟨(zero_defaults 128 ⟨5, REQ_INFER, leBytes 4 0 ++ leBytes 4 0 ++ leBytes 4 0⟩
      ⟨5, 128, 0, []⟩ (by decide)).1 (by decide),
   (zero_defaults 128 ⟨5, REQ_INFER, leBytes 4 0 ++ leBytes 4 0 ++ leBytes 4 0⟩
      ⟨5, 128, 0, []⟩ (by decide)).2.2.1 (by decide)⟩

/-- Claim C8: on the tag-matched transport, a matched message shorter than
the header is consumed and discarded without delivery, a magic mismatch is
discarded without delivery, and in both cases the pump continues with the
later matched messages (the progress call does not fail on either). -/
theorem ucx_malformed_discard (bytes : List Nat) (rest : List (List Nat)) :
    (bytes.length < headerSize → ucxDecode bytes = none) ∧
    ((decodeHeader bytes).magic ≠ kMagic → ucxDecode bytes = none) ∧
    (ucxDecode bytes = none → pumpRecv (bytes :: rest) = pumpRecv rest) := by
  refine ⟨?_, ?_, ?_⟩
  · intro h
    simp [ucxDecode, h]
  · intro h
    by_cases hl : bytes.length < headerSize
    · simp [ucxDecode, hl]
    · simp [ucxDecode, hl, h]
  · intro h
    simp [pumpRecv, List.filterMap_cons, h]

theorem ucx_malformed_witness :
    ucxDecode [1, 2, 3] = none ∧
    pumpRecv [List.replicate 24 9,
      encodeHeader ⟨kMagic, kProtoVer, RESP_DONE, 7, 0, 0⟩] =
      pumpRecv [encodeHeader ⟨kMagic, kProtoVer, RESP_DONE, 7, 0, 0⟩] :=
  ⟨(ucx_malformed_discard [1, 2, 3] []).1 (by decide),
   (ucx_malformed_discard (List.replicate 24 9)
      [encodeHeader ⟨kMagic, kProtoVer, RESP_DONE, 7, 0, 0⟩]).2.2 (by decide)⟩

theorem chunkStep_char (credit rid : Nat) (hcred : credit < 2 ^ 32)
    (fs : List Frame) (sent : Nat) (c : List Nat) :
    chunkStep credit rid (fs, sent) c =
      if sent + c.length ≤ credit
      then (fs ++ [⟨rid, RESP_CHUNK, c⟩], sent + c.length)
      else (fs, sent) := by
  unfold chunkStep
  by_cases h : sent + c.length > credit
  · rw [if_pos h, if_neg (Nat.not_le.mpr h)]
  · have hle : sent + c.length ≤ credit := Nat.not_lt.mp h
    have hclen : c.length % 2 ^ 32 = c.length :=
      Nat.mod_eq_of_lt (by omega)
    have hsum : (sent + c.length) % 2 ^ 32 = sent + c.length :=
      Nat.mod_eq_of_lt (by omega)
    rw [if_neg h, if_pos hle]
    simp only [hclen, hsum]

theorem runChunks_sent_le (credit rid : Nat) (hcred : credit < 2 ^ 32)
    (cs : List (List Nat)) : (runChunks credit rid cs).2 ≤ credit := by
  unfold runChunks
  suffices h : ∀ st : List Frame × Nat, st.2 ≤ credit →
      (cs.foldl (chunkStep credit rid) st).2 ≤ credit from
    h ([], 0) (Nat.zero_le _)
  induction cs with
  | nil => intro st h; simpa using h
  | cons c cs ih =>
    intro st h
    simp only [List.foldl_cons]
    apply ih
    unfold chunkStep
    split
    · exact h
    · rename_i hgt
      push_neg at hgt
      simp only
      have hclen : c.length % 2 ^ 32 = c.length :=
        Nat.mod_eq_of_lt (by omega)
      have hsum : (st.2 + c.length) % 2 ^ 32 = st.2 + c.length :=
        Nat.mod_eq_of_lt (by omega)
      rw [hclen, hsum]
      exact hgt

/-- Claim C2: with the credit budget of the worker, a chunk is forwarded as a
RESP_CHUNK frame if and only if adding its size to sent_bytes does not
exceed the budget (in which case the counter advances by the chunk size),
and a chunk that would exceed the budget is dropped leaving frames and
counter unchanged. Concretely, credit_bytes=100 with three 40-byte chunks
forwards exactly the first two and still sends RESP_DONE. -/
theorem credit_enforcement (rid credit_bytes : Nat)
    (hcb : credit_bytes < 2 ^ 32) :
    (∀ (pre : List (List Nat)) (c : List Nat),
      runChunks (creditFor credit_bytes) rid (pre ++ [c]) =
        if (runChunks (creditFor credit_bytes) rid pre).2 + c.length ≤
            creditFor credit_bytes
        then ((runChunks (creditFor credit_bytes) rid pre).1 ++
                [⟨rid, RESP_CHUNK, c⟩],
              (runChunks (creditFor credit_bytes) rid pre).2 + c.length)
        else runChunks (creditFor credit_bytes) rid pre) ∧
    workerFrames ⟨77, 8, 100, []⟩ ⟨true, [], [List.replicate 40 65,
        List.replicate 40 66, List.replicate 40 67], 3, 5, []⟩ =
      [⟨77, RESP_CHUNK, List.replicate 40 65⟩,
       ⟨77, RESP_CHUNK, List.replicate 40 66⟩,
       ⟨77, RESP_DONE, doneBytes 3 5⟩] := by
  have hcf : creditFor credit_bytes < 2 ^ 32 := by
    unfold creditFor defaultCredit
    split
    · exact hcb
    · norm_num
  constructor
  · intro pre c
    have hstep := chunkStep_char (creditFor credit_bytes) rid hcf
      (runChunks (creditFor credit_bytes) rid pre).1
      (runChunks (creditFor credit_bytes) rid pre).2 c
    rw [Prod.mk.eta] at hstep
    calc runChunks (creditFor credit_bytes) rid (pre ++ [c])
        = chunkStep (creditFor credit_bytes) rid
            (runChunks (creditFor credit_bytes) rid pre) c := by
          unfold runChunks
          rw [List.foldl_append]
          simp only [List.foldl_cons, List.foldl_nil]
      _ = _ := hstep
  · decide

theorem decodeHeader_encode_of_lt (H : MsgHeader) (tail : List Nat)
    (hm : H.magic < 2 ^ 32) (hv : H.version < 2 ^ 16) (ht : H.type < 2 ^ 16)
    (hr : H.req_id < 2 ^ 64) (hf : H.flags < 2 ^ 32) (hl : H.length < 2 ^ 32) :
    decodeHeader (encodeHeader H ++ tail) = H := by
  obtain ⟨m, v, t, r, f, l⟩ := H
  rw [decodeHeader_encode]
  simp only [MsgHeader.mk.injEq]
  simp only at hm hv ht hr hf hl
  exact ⟨Nat.mod_eq_of_lt (by omega), Nat.mod_eq_of_lt (by omega),
    Nat.mod_eq_of_lt (by omega), Nat.mod_eq_of_lt (by omega),
    Nat.mod_eq_of_lt (by omega), Nat.mod_eq_of_lt (by omega)⟩

/-- A frame with the correct magic and ANY header version is extracted and
delivered by the parse loop (the version field is never inspected by
handle_read). -/
theorem drainFrames_headerFrame (v t r : Nat) (p rest : List Nat)
    (hv : v < 2 ^ 16) (ht : t < 2 ^ 16) (hr : r < 2 ^ 64)
    (hp : p.length < 2 ^ 32) (acc : List IncomingMessage) :
    drainFrames ((encodeHeader ⟨kMagic, v, t, r, 0, p.length⟩ ++ p) ++ rest)
        acc =
      drainFrames rest (acc ++ [⟨r, t, p⟩]) := by
  have hdec : decodeHeader ((encodeHeader ⟨kMagic, v, t, r, 0, p.length⟩ ++ p)
      ++ rest) = ⟨kMagic, v, t, r, 0, p.length⟩ := by
    rw [List.append_assoc]
    exact decodeHeader_encode_of_lt _ _ (show kMagic < 2 ^ 32 by norm_num [kMagic])
      hv ht hr (show (0 : Nat) < 2 ^ 32 by norm_num) hp
  have hlen : ((encodeHeader ⟨kMagic, v, t, r, 0, p.length⟩ ++ p) ++ rest).length
      = headerSize + p.length + rest.length := by
    simp [encodeHeader_length]
    omega
  rw [drainFrames]
  rw [if_neg (by rw [hlen]; omega)]
  simp only [hdec]
  rw [if_neg (by simp)]
  rw [if_neg (by rw [hlen]; omega)]
  have hdrop24 : ((encodeHeader ⟨kMagic, v, t, r, 0, p.length⟩ ++ p) ++ rest).drop
      headerSize = p ++ rest := by
    rw [List.append_assoc]
    exact List.drop_left' (encodeHeader_length _)
  have hpay : (((encodeHeader ⟨kMagic, v, t, r, 0, p.length⟩ ++ p) ++ rest).drop
      headerSize).take p.length = p := by
    rw [hdrop24]
    exact List.take_left p rest
  have hdropAll : ((encodeHeader ⟨kMagic, v, t, r, 0, p.length⟩ ++ p) ++ rest).drop
      (headerSize + p.length) = rest := by
    apply List.drop_left'
    simp [encodeHeader_length]
  rw [hpay, hdropAll]

theorem drainFrames_incomplete (rx : List Nat) (acc : List IncomingMessage)
    (h24 : ¬ rx.length < headerSize)
    (hm : (decodeHeader rx).magic = kMagic)
    (hn : rx.length < headerSize + (decodeHeader rx).length) :
    drainFrames rx acc = FeedState.ok rx acc := by
  rw [drainFrames]; simp [h24, hm, hn]

/-- The parse loop only ever appends to the already-delivered messages. -/
theorem drainFrames_msgs_acc (rx : List Nat) (acc : List IncomingMessage) :
    ∃ t, (drainFrames rx acc).msgs = acc ++ t := by
  suffices h : ∀ (n : Nat) (rx : List Nat) (acc : List IncomingMessage),
      rx.length ≤ n → ∃ t, (drainFrames rx acc).msgs = acc ++ t from
    h rx.length rx acc le_rfl
  intro n
  induction n with
  | zero =>
    intro rx acc hle
    have hrx : rx = [] := List.eq_nil_of_length_eq_zero (Nat.le_zero.mp hle)
    subst hrx
    rw [drainFrames_short _ _ (by simp [headerSize])]
    exact ⟨[], by simp [FeedState.msgs]⟩
  | succ k ih =>
    intro rx acc hle
    by_cases h24 : rx.length < headerSize
    · rw [drainFrames_short _ _ h24]
      exact ⟨[], by simp [FeedState.msgs]⟩
    · by_cases hm : (decodeHeader rx).magic = kMagic
      · by_cases hn : rx.length < headerSize + (decodeHeader rx).length
        · rw [drainFrames_incomplete _ _ h24 hm hn]
          exact ⟨[], by simp [FeedState.msgs]⟩
        · rw [drainFrames_step _ _ h24 hm hn]
          have hd : headerSize = 24 := rfl
          obtain ⟨t, ht⟩ := ih
            (rx.drop (headerSize + (decodeHeader rx).length))
            (acc ++ [⟨(decodeHeader rx).req_id, (decodeHeader rx).type,
              (rx.drop headerSize).take (decodeHeader rx).length⟩])
            (by simp only [List.length_drop]; omega)
          exact ⟨[⟨(decodeHeader rx).req_id, (decodeHeader rx).type,
            (rx.drop headerSize).take (decodeHeader rx).length⟩] ++ t,
            by rw [ht]; simp⟩
      · rw [drainFrames_badmagic _ _ h24 hm]
        exact ⟨[], by simp [FeedState.msgs]⟩

theorem credit_enforcement_witness :
    workerFrames ⟨77, 8, 100, []⟩ ⟨true, [], [List.replicate 40 65,
        List.replicate 40 66, List.replicate 40 67], 3, 5, []⟩ =
      [⟨77, RESP_CHUNK, List.replicate 40 65⟩,
       ⟨77, RESP_CHUNK, List.replicate 40 66⟩,
       ⟨77, RESP_DONE, doneBytes 3 5⟩] :=
  (credit_enforcement 1 100 (by decide)).2

/-- Claim C1 (amended): encode-then-decode returns the identical type,
req_id and payload triple for every u16 type, u64 req_id and payload
shorter than 2^32 bytes (the header length field is a u32; the source
casts the payload size with static_cast, so longer payloads truncate). -/
theorem frame_roundtrip (t r : Nat) (p : List Nat) (ht : t < 2 ^ 16)
    (hr : r < 2 ^ 64) (hp : p.length < 2 ^ 32) :
    drainFrames (sendFrame r t p) [] = FeedState.ok [] [⟨r, t, p⟩] := by
  have h : sendFrame r t p = sendFrame r t p ++ [] := by simp
  rw [h, drainFrames_sendFrame r t p [] ht hr hp []]
  rw [drainFrames_short _ _ (by simp [headerSize])]
  simp

theorem frame_roundtrip_witness :
    drainFrames (sendFrame 12 4 [1, 2, 3]) [] =
      FeedState.ok [] [⟨12, 4, [1, 2, 3]⟩] :=
  frame_roundtrip 4 12 [1, 2, 3] (by decide) (by decide) (by decide)

/-- Claim C1 counterexample: for a payload of 2^32 bytes, the
`static_cast<uint32_t>(len)` in the header construction of the sender wraps the
length field to 0, so the decoded message does not carry the original
payload: the round-trip is not the identity on all payload byte
sequences. -/
theorem roundtrip_truncation :
    drainFrames (sendFrame 9 3 (List.replicate (2 ^ 32) 0)) [] ≠
      FeedState.ok [] [⟨9, 3, List.replicate (2 ^ 32) 0⟩] := by
  intro hEq
  have hlen : (List.replicate (2 ^ 32) (0 : Nat)).length = 2 ^ 32 :=
    List.length_replicate _ _
  have hform : sendFrame 9 3 (List.replicate (2 ^ 32) 0) =
      encodeHeader ⟨kMagic, kProtoVer, 3, 9, 0, 2 ^ 32⟩ ++
        List.replicate (2 ^ 32) 0 := by
    unfold sendFrame
    rw [hlen]
  have hdec : decodeHeader (sendFrame 9 3 (List.replicate (2 ^ 32) 0)) =
      ⟨kMagic, kProtoVer, 3, 9, 0, 0⟩ := by
    rw [hform, decodeHeader_encode]
    simp only [MsgHeader.mk.injEq]
    exact ⟨by decide, by decide, by decide, by decide, by decide, by norm_num⟩
  have hsfl : (sendFrame 9 3 (List.replicate (2 ^ 32) 0)).length =
      headerSize + 2 ^ 32 := by
    rw [sendFrame_length, hlen]
  have h24 : ¬ (sendFrame 9 3 (List.replicate (2 ^ 32) 0)).length <
      headerSize := by
    rw [hsfl]; omega
  have hn : ¬ (sendFrame 9 3 (List.replicate (2 ^ 32) 0)).length <
      headerSize +
        (decodeHeader (sendFrame 9 3 (List.replicate (2 ^ 32) 0))).length := by
    rw [hsfl, hdec]
    show ¬ headerSize + 2 ^ 32 < headerSize + (0 : Nat)
    omega
  have hstep := drainFrames_step (sendFrame 9 3 (List.replicate (2 ^ 32) 0)) []
    h24 (by rw [hdec]) hn
  rw [hdec] at hstep
  simp only [List.nil_append, List.take_zero] at hstep
  rw [hEq] at hstep
  obtain ⟨tail, htail⟩ := drainFrames_msgs_acc
    ((sendFrame 9 3 (List.replicate (2 ^ 32) 0)).drop (headerSize + 0))
    [⟨9, 3, []⟩]
  rw [← hstep] at htail
  simp only [FeedState.msgs, List.singleton_append] at htail
  injection htail with h1 h2
  injection h1 with ha hb hc
  have hlc := congrArg List.length hc
  rw [List.length_replicate, List.length_nil] at hlc
  exact absurd hlc (by norm_num)

/-- Claim C5 counterexample: a frame with correct magic and version 2
(not the supported version 1) is decoded and delivered to the handler by
both the parse loop of the stream transport and the tag-matched pump — it is
not treated as a decode failure. -/
theorem unsupported_version_delivered :
    drainFrames versionTwoFrame [] = FeedState.ok [] [⟨9, RESP_DONE, []⟩] ∧
    pumpRecv [versionTwoFrame] = [⟨9, RESP_DONE, []⟩] ∧
    (decodeHeader versionTwoFrame).version ≠ kProtoVer := by
  refine ⟨?_, by decide, by decide⟩
  have h : versionTwoFrame =
      (encodeHeader ⟨kMagic, 2, RESP_DONE, 9, 0, ([] : List Nat).length⟩ ++
        ([] : List Nat)) ++ ([] : List Nat) := by
    simp [versionTwoFrame]
  rw [h, drainFrames_headerFrame 2 RESP_DONE 9 [] [] (by decide) (by decide)
    (by decide) (by decide) []]
  rw [drainFrames_short _ _ (by simp [headerSize])]
  simp

/-- Claim C5 (amended): neither receive path validates the version field —
only the magic is checked, so a frame with correct magic and an arbitrary
u16 version value is decoded and delivered normally on both transports. -/
theorem version_not_validated (v t r : Nat) (p : List Nat) (hv : v < 2 ^ 16)
    (ht : t < 2 ^ 16) (hr : r < 2 ^ 64) (hp : p.length < 2 ^ 32) :
    drainFrames (encodeHeader ⟨kMagic, v, t, r, 0, p.length⟩ ++ p) [] =
      FeedState.ok [] [⟨r, t, p⟩] ∧
    ucxDecode (encodeHeader ⟨kMagic, v, t, r, 0, p.length⟩ ++ p) =
      some ⟨r, t, p⟩ := by
  constructor
  · have h : encodeHeader ⟨kMagic, v, t, r, 0, p.length⟩ ++ p =
        (encodeHeader ⟨kMagic, v, t, r, 0, p.length⟩ ++ p) ++ [] := by simp
    rw [h, drainFrames_headerFrame v t r p [] hv ht hr hp []]
    rw [drainFrames_short _ _ (by simp [headerSize])]
    simp
  · have hdec : decodeHeader (encodeHeader ⟨kMagic, v, t, r, 0, p.length⟩ ++ p)
        = ⟨kMagic, v, t, r, 0, p.length⟩ :=
      decodeHeader_encode_of_lt _ _ (show kMagic < 2 ^ 32 by norm_num [kMagic])
        hv ht hr (show (0 : Nat) < 2 ^ 32 by norm_num) hp
    unfold ucxDecode
    rw [if_neg (by rw [List.length_append, encodeHeader_length]; omega)]
    simp only [hdec]
    rw [if_neg (by simp)]
    have hdrop : (encodeHeader ⟨kMagic, v, t, r, 0, p.length⟩ ++ p).drop
        headerSize = p :=
      List.drop_left' (encodeHeader_length _)
    simp [hdrop]

theorem version_not_validated_witness :
    drainFrames (encodeHeader ⟨kMagic, 2, 3, 9, 0, [65].length⟩ ++ [65]) [] =
      FeedState.ok [] [⟨9, 3, [65]⟩] :=
  (version_not_validated 2 3 9 [65] (by decide) (by decide) (by decide)
    (by decide)).1

/-- Claim C4: for every sequence of well-formed encoded frames and every
partition of their concatenated bytes into contiguous pieces, feeding the
pieces to the reassembly loop in order reaches the same state as feeding
the concatenation whole, and the delivered messages are exactly the frames
in order. -/
theorem reassembly_invariance (fs : List Frame) (hwf : ∀ f ∈ fs, WFframe f)
    (pieces : List (List Nat))
    (hsplit : pieces.flatten = (fs.map encodeFrame).flatten) :
    pieces.foldl feedBytes initFeed =
      feedBytes initFeed (fs.map encodeFrame).flatten ∧
    (pieces.foldl feedBytes initFeed).msgs = fs.map Frame.toMsg := by
  have h1 : pieces.foldl feedBytes initFeed =
      feedBytes initFeed (fs.map encodeFrame).flatten := by
    rw [feedBytes_foldl initFeed initFeed_stable, hsplit]
  refine ⟨h1, ?_⟩
  rw [h1]
  show (drainFrames ([] ++ (fs.map encodeFrame).flatten) []).msgs = _
  rw [List.nil_append, drainFrames_stream fs hwf []]
  simp [FeedState.msgs]

theorem reassembly_invariance_witness :
    (([(([⟨1, 2, [65]⟩, ⟨2, 3, []⟩] : List Frame).map encodeFrame).flatten.take
          10,
        (([⟨1, 2, [65]⟩, ⟨2, 3, []⟩] : List Frame).map encodeFrame).flatten.drop
          10]).foldl feedBytes initFeed).msgs =
      ([⟨1, 2, [65]⟩, ⟨2, 3, []⟩] : List Frame).map Frame.toMsg :=
  (reassembly_invariance [⟨1, 2, [65]⟩, ⟨2, 3, []⟩] (by decide)
    [(([⟨1, 2, [65]⟩, ⟨2, 3, []⟩] : List Frame).map encodeFrame).flatten.take 10,
     (([⟨1, 2, [65]⟩, ⟨2, 3, []⟩] : List Frame).map encodeFrame).flatten.drop 10]
    (by decide)).2

theorem handleReadConns_other (conns : List (Nat × FeedState)) (fd : Nat)
    (bytes : List Nat) (g : Nat) (st : FeedState) (hne : g ≠ fd)
    (hmem : (g, st) ∈ conns) :
    (g, st) ∈ (handleReadConns conns fd bytes).1 := by
  induction conns with
  | nil => simp at hmem
  | cons c rest ih =>
    obtain ⟨cfd, cst⟩ := c
    unfold handleReadConns
    by_cases h : cfd = fd
    · subst h
      simp only [if_pos rfl]
      rcases List.mem_cons.mp hmem with h1 | h1
      · exfalso
        apply hne
        exact congrArg Prod.fst h1
      · exact List.mem_cons_of_mem _ h1
    · simp only [if_neg h]
      rcases List.mem_cons.mp hmem with h1 | h1
      · exact h1 ▸ List.mem_cons_self _ _
      · exact List.mem_cons_of_mem _ (ih h1)

/-- Claim C6 (amended): a bad-magic frame on one connection makes
handle_read fail; the error propagates out of progress and the run loop of
the server exits immediately (later event batches — including frames on
other open connections — are never processed), while the failing progress
call leaves the buffered state of every other connection in place. -/
theorem bad_magic_fatal (conns : List (Nat × FeedState)) (fd : Nat)
    (bytes : List Nat) (batches : List (List (Nat × List Nat)))
    (hfail : (handleReadConns conns fd bytes).2 = false) :
    serverRun conns ([(fd, bytes)] :: batches) =
      ((handleReadConns conns fd bytes).1, false) ∧
    ∀ g st, g ≠ fd → (g, st) ∈ conns →
      (g, st) ∈ (handleReadConns conns fd bytes).1 := by
  constructor
  · simp [serverRun, progressEvents, hfail]
  · intro g st hne hmem
    exact handleReadConns_other conns fd bytes g st hne hmem

theorem bad_magic_fatal_witness :
    serverRun [(1, initFeed), (2, initFeed)] [[(1, badMagicBytes)]] =
      ((handleReadConns [(1, initFeed), (2, initFeed)] 1 badMagicBytes).1,
        false) :=
  (bad_magic_fatal [(1, initFeed), (2, initFeed)] 1 badMagicBytes []
    (by
      have hb : feedBytes initFeed badMagicBytes = FeedState.failed [] := by
        show drainFrames ([] ++ badMagicBytes) [] = _
        rw [List.nil_append]
        exact drainFrames_badmagic _ _ (by decide) (by decide)
      simp [handleReadConns, hb, connOk])).1

/-- Claim C6 counterexample: with two open connections, a bad-magic frame
on connection 1 terminates the run loop of the server (result flag false) and
connection 2 — for which a valid frame arrives in the next batch — never
has anything delivered: its state is still the initial one. -/
theorem bad_magic_stops_server :
    serverRun [(1, initFeed), (2, initFeed)]
        [[(1, badMagicBytes)], [(2, encodeFrame ⟨7, 1, [65]⟩)]] =
      ([(1, FeedState.failed []), (2, initFeed)], false) := by
  have hb : feedBytes initFeed badMagicBytes = FeedState.failed [] := by
    show drainFrames ([] ++ badMagicBytes) [] = _
    rw [List.nil_append]
    exact drainFrames_badmagic _ _ (by decide) (by decide)
  have h1 : handleReadConns [(1, initFeed), (2, initFeed)] 1 badMagicBytes =
      ([(1, FeedState.failed []), (2, initFeed)], false) := by
    simp [handleReadConns, hb, connOk]
  simp [serverRun, progressEvents, h1]

/-- Claim C9 counterexample: a matching RESP_ERR observed during the first
of two iterations does not survive to the exit code — got_err is reset at
the top of each iteration, so the client exits 0 although a RESP_ERR was
observed during its run. -/
theorem client_err_forgotten :
    clientExitCode [(1, [⟨1, RESP_ERR, [70]⟩, ⟨1, RESP_DONE, doneBytes 0 0⟩]),
        (2, [⟨2, RESP_DONE, doneBytes 0 0⟩])] = 0 ∧
    clientIterGotErr 1 [⟨1, RESP_ERR, [70]⟩, ⟨1, RESP_DONE, doneBytes 0 0⟩] =
      true := by
  decide

/-- Claim C9 (amended): the exit status of the client is decided by the final
iteration alone — it exits 2 exactly when a RESP_ERR matching the
outstanding request of the final iteration was observed during it, and 0
otherwise (errors in earlier iterations are forgotten by the per-iteration
reset of got_err); with no iterations it exits 0. -/
theorem client_exit_final_iteration :
    clientExitCode [] = 0 ∧
    ∀ (pre : List (Nat × List Frame)) (rid : Nat) (frames : List Frame),
      clientExitCode (pre ++ [(rid, frames)]) =
        if clientIterGotErr rid frames then 2 else 0 := by
  refine ⟨rfl, ?_⟩
  intro pre rid frames
  unfold clientExitCode
  rw [List.foldl_append]
  simp only [List.foldl_cons, List.foldl_nil]

end CC50
